import Mathlib

/-!
Shallow embedding of the `tree` package of rsned/datastructures (Go), together
with proofs about the claims of its specification.

Conventions of the embedding:
* The Go package is generic over `constraints.Ordered`; every claim exercises
  it at `int`, so values are embedded as `Int` (the values involved are tiny,
  so 64-bit overflow never matters).
* A Go nil node pointer is the `nil` constructor of the corresponding
  inductive type; a struct is a constructor carrying its fields.
* Go methods that mutate through the receiver are embedded as functions
  returning the updated tree together with the Go return value.
* The AVL node carries a parent pointer used only to walk upward during
  rebalancing.  The embedding represents a node's identity by its path from
  the root (`List Dir`), and the upward walks of the Go code become walks
  along shrinking paths; rotations mutate only the subtree below the rotated
  node (the Go code swaps values so the rotated node keeps its position), so
  replacing the subtree at the path is an exact model of the mutation.
* Go panics (nil dereference) are modelled by `Option`: `none` means the Go
  program would crash.
-/

/-- The five traversal orders of the `TraverseOrder` enum (tree.go; the enum
declaration is referenced by binary_tree.go). -/
inductive TraverseOrder where
  | TraverseInOrder
  | TraversePreOrder
  | TraversePostOrder
  | TraverseReverseOrder
  | TraverseLevelOrder
deriving DecidableEq

/-- Read-only view of a node through the Go `BinaryTree[T]` interface
(binary_tree.go): `Value`, `HasLeft`/`Left`, `HasRight`/`Right`.  Every
variant's node type maps onto this view; `nil` is a nil node pointer. -/
inductive BinaryTree where
  | nil
  | node (value : Int) (left right : BinaryTree)
deriving DecidableEq

/-- `isTreeNil` from binary_tree_functions.go: reports whether the interface
value holds a nil node pointer. -/
def isTreeNil : BinaryTree → Bool
  | .nil => true
  | _ => false

/-- `traverseBinaryTree` from binary_tree.go, as the list of values emitted to
the channel.  The Go code guards every recursive call with `HasLeft`/
`HasRight`, so the recursion never reaches a nil child; the `nil` equation
here encodes exactly those guards (emitting nothing).  A *top-level* Go call
on a nil node would panic inside `HasLeft`; callers in this file model that
case separately.  The `TraverseLevelOrder` arm of the Go switch is empty
(its panic is commented out), so it emits nothing. -/
def traverseBinaryTree : BinaryTree → TraverseOrder → List Int
  | .nil, _ => []
  | .node v l r, .TraverseInOrder =>
      traverseBinaryTree l .TraverseInOrder ++ v :: traverseBinaryTree r .TraverseInOrder
  | .node v l r, .TraversePreOrder =>
      v :: (traverseBinaryTree l .TraversePreOrder ++ traverseBinaryTree r .TraversePreOrder)
  | .node v l r, .TraversePostOrder =>
      traverseBinaryTree l .TraversePostOrder ++ traverseBinaryTree r .TraversePostOrder ++ [v]
  | .node v l r, .TraverseReverseOrder =>
      traverseBinaryTree r .TraverseReverseOrder ++ v :: traverseBinaryTree l .TraverseReverseOrder
  | .node _ _ _, .TraverseLevelOrder => []

/-- The receive loop of `binaryTreesEquivalent` (binary_tree_functions.go).
Each iteration reads one value from each traversal channel: a closed Go
channel yields the zero value (`0` for `int`) with `ok = false`.  The Go loop
then checks `aVal != bVal`, then `moreA != moreB`, then `!moreA && !moreB`.
The four equations are those checks on the remaining value lists. -/
def equivalentLoop : List Int → List Int → Bool
  | a :: as, b :: bs => if a ≠ b then false else equivalentLoop as bs
  | a :: _, [] => if a ≠ 0 then false else false
  | [], b :: _ => if (0 : Int) ≠ b then false else false
  | [], [] => true

/-- `binaryTreesEquivalent` from binary_tree_functions.go: nil-handling, then
the element-by-element comparison of the two In-Order traversals. -/
def binaryTreesEquivalent (a b : BinaryTree) : Bool :=
  if isTreeNil a == isTreeNil b && isTreeNil a then true
  else if isTreeNil a != isTreeNil b then false
  else equivalentLoop (traverseBinaryTree a .TraverseInOrder)
      (traverseBinaryTree b .TraverseInOrder)

/-- `traverseBinaryTreeStructure` from binary_tree_functions.go: the shape
token walk.  It emits "↓L" before recursing left, "↑" after returning from a
recursed child, "V" at each node, "↓R" before recursing right; a nil tree
emits nothing (the `isTreeNil` entry check). -/
def traverseBinaryTreeStructure : BinaryTree → List String
  | .nil => []
  | .node _ l r =>
      (match l with
       | .nil => []
       | .node lv ll lr =>
           "↓L" :: (traverseBinaryTreeStructure (.node lv ll lr) ++ ["↑"]))
      ++ "V" ::
      (match r with
       | .nil => []
       | .node rv rl rr =>
           "↓R" :: (traverseBinaryTreeStructure (.node rv rl rr) ++ ["↑"]))

/-- `binaryTreeStructure` from binary_tree_functions.go: collects the tokens
emitted by `traverseBinaryTreeStructure` into a slice. -/
def binaryTreeStructure (t : BinaryTree) : List String :=
  traverseBinaryTreeStructure t

/-- `binaryTreeStructureEqual` from binary_tree_functions.go
(`slices.Equal` of the two token slices). -/
def binaryTreeStructureEqual (a b : BinaryTree) : Bool :=
  decide (binaryTreeStructure a = binaryTreeStructure b)

/-- `binaryTreesEqual` from binary_tree_functions.go. -/
def binaryTreesEqual (a b : BinaryTree) : Bool :=
  binaryTreesEquivalent a b && binaryTreeStructureEqual a b

/-- `bstNode` from binary_search_tree_node.go: value and two children. -/
inductive bstNode where
  | nil
  | node (value : Int) (left right : bstNode)
deriving DecidableEq

/-- The `BinaryTree` interface view of a `bstNode`. -/
def bstNode.view : bstNode → BinaryTree
  | .nil => .nil
  | .node v l r => .node v l.view r.view

/-- `bstNode.Insert`: recursive insert, duplicates rejected, nil receiver
returns false.  Returns the updated tree and the Go boolean. -/
def bstNode.Insert : bstNode → Int → bstNode × Bool
  | .nil, _ => (.nil, false)
  | .node w l r, v =>
      if v = w then (.node w l r, false)
      else if v < w then
        match l with
        | .nil => (.node w (.node v .nil .nil) r, true)
        | .node lw ll lr =>
            let res := bstNode.Insert (.node lw ll lr) v
            (.node w res.1 r, res.2)
      else
        match r with
        | .nil => (.node w l (.node v .nil .nil), true)
        | .node rw rl rr =>
            let res := bstNode.Insert (.node rw rl rr) v
            (.node w l res.1, res.2)

/-- `bstNode.Search`: nil gives false; equal gives true; otherwise descend on
the side selected by the comparison. -/
def bstNode.Search : bstNode → Int → Bool
  | .nil, _ => false
  | .node w l r, v =>
      if v = w then true
      else if v < w then l.Search v
      else r.Search v

/-- `bstNode.Height`: 0 for nil, otherwise one more than the taller child. -/
def bstNode.Height : bstNode → Int
  | .nil => 0
  | .node _ l r =>
      let lh := l.Height
      let rh := r.Height
      if lh > rh then lh + 1 else rh + 1

/-- The `BST` container (binary_search_tree.go): owns the root node. -/
structure BST where
  root : bstNode
deriving DecidableEq

/-- `BST.Insert`: creates the root when empty, otherwise delegates to the
root node. -/
def BST.Insert (t : BST) (v : Int) : BST × Bool :=
  match t.root with
  | .nil => (⟨.node v .nil .nil⟩, true)
  | .node w l r =>
      let res := bstNode.Insert (.node w l r) v
      (⟨res.1⟩, res.2)

/-- `BST.Height`: 0 when the root is nil, otherwise the root's height. -/
def BST.Height (t : BST) : Int :=
  match t.root with
  | .nil => 0
  | .node w l r => bstNode.Height (.node w l r)

/-- `redBlackNode` from red_black_node.go: value, color flag, two children. -/
inductive redBlackNode where
  | nil
  | node (value : Int) (isRed : Bool) (left right : redBlackNode)
deriving DecidableEq

/-- The `BinaryTree` interface view of a `redBlackNode`. -/
def redBlackNode.view : redBlackNode → BinaryTree
  | .nil => .nil
  | .node v _ l r => .node v l.view r.view

/-- `redBlackNode.Metadata`: "Red" or "Black" from the color flag.  The Go
method dereferences the receiver, so a nil receiver would panic (`none`). -/
def redBlackNode.Metadata : redBlackNode → Option String
  | .nil => none
  | .node _ red _ _ => some (if red then "Red" else "Black")

/-- `redBlackNode.Insert`: identical to the BST insert; a newly created node
leaves `isRed` at the Go zero value `false` (no color is ever assigned). -/
def redBlackNode.Insert : redBlackNode → Int → redBlackNode × Bool
  | .nil, _ => (.nil, false)
  | .node w c l r, v =>
      if v = w then (.node w c l r, false)
      else if v < w then
        match l with
        | .nil => (.node w c (.node v false .nil .nil) r, true)
        | .node lw lc ll lr =>
            let res := redBlackNode.Insert (.node lw lc ll lr) v
            (.node w c res.1 r, res.2)
      else
        match r with
        | .nil => (.node w c l (.node v false .nil .nil), true)
        | .node rw rc rl rr =>
            let res := redBlackNode.Insert (.node rw rc rl rr) v
            (.node w c l res.1, res.2)

/-- `redBlackNode.Search`: same shape as the BST search. -/
def redBlackNode.Search : redBlackNode → Int → Bool
  | .nil, _ => false
  | .node w _ l r, v =>
      if v = w then true
      else if v < w then l.Search v
      else r.Search v

/-- `redBlackNode.Height`: same shape as the BST height. -/
def redBlackNode.Height : redBlackNode → Int
  | .nil => 0
  | .node _ _ l r =>
      let lh := l.Height
      let rh := r.Height
      if lh > rh then lh + 1 else rh + 1

/-- The `RedBlack` container: owns the root node. -/
structure RedBlack where
  root : redBlackNode
deriving DecidableEq

/-- `RedBlack.Insert`: creates the root when empty (color flag left at the
zero value `false`), otherwise delegates to the root node. -/
def RedBlack.Insert (t : RedBlack) (v : Int) : RedBlack × Bool :=
  match t.root with
  | .nil => (⟨.node v false .nil .nil⟩, true)
  | .node w c l r =>
      let res := redBlackNode.Insert (.node w c l r) v
      (⟨res.1⟩, res.2)

/-- `RedBlack.Height`: 0 when the root is nil, otherwise the root's height. -/
def RedBlack.Height (t : RedBlack) : Int :=
  match t.root with
  | .nil => 0
  | .node w c l r => redBlackNode.Height (.node w c l r)

/-- `RedBlack.Traverse`: the Go method body is `return make(chan T)` — a
fresh unbuffered channel with no producer goroutine and no close.  No value
is ever emitted on it, so the sequence of values a consumer can receive is
empty (and a draining consumer blocks forever). -/
def RedBlack.Traverse (_ : RedBlack) (_ : TraverseOrder) : List Int :=
  []

/-- A step from a node to one of its children; a `List Dir` is the position
of a node as the path from the root.  This is how the embedding represents
node identity and the `parent` back-references of the AVL node: the Go walk
`x = x.parent` becomes dropping the last step of the path. -/
inductive Dir where
  | L
  | R
deriving DecidableEq

/-- Which rebalancing operation `avlNode.Insert` applied (ghost
instrumentation: the Go code applies these in place and returns nothing). -/
inductive RotKind where
  | rotL
  | rotR
  | rotRL
  | rotLR
deriving DecidableEq

/-- A rebalancing operation together with the path of the node it was
applied at (ghost instrumentation of the Go rebalancing loop). -/
structure RotEvent where
  kind : RotKind
  path : List Dir
deriving DecidableEq

/-- `avlNode` from avl_node.go: value, stored balance factor `bf`, and two
children.  The `parent` back-reference is represented by paths (`List Dir`),
see `Dir`. -/
inductive avlNode where
  | nil
  | node (value : Int) (bf : Int) (left right : avlNode)
deriving DecidableEq

/-- The `BinaryTree` interface view of an `avlNode`. -/
def avlNode.view : avlNode → BinaryTree
  | .nil => .nil
  | .node v _ l r => .node v l.view r.view

/-- `avlNode.Height`: 0 for nil, otherwise one more than the taller child. -/
def avlNode.Height : avlNode → Int
  | .nil => 0
  | .node _ _ l r =>
      let lh := l.Height
      let rh := r.Height
      if lh > rh then lh + 1 else rh + 1

/-- `avlNode.balanceFactor`: 0 for nil, otherwise
`right.Height() - left.Height()` (computed, not the stored `bf`). -/
def avlNode.balanceFactor : avlNode → Int
  | .nil => 0
  | .node _ _ l r => r.Height - l.Height

/-- `avlNode.Search`: nil gives false; equal gives true; otherwise descend. -/
def avlNode.Search : avlNode → Int → Bool
  | .nil, _ => false
  | .node w _ l r, v =>
      if v = w then true
      else if v < w then l.Search v
      else r.Search v

/-- The subtree rooted at the node reached from `t` by following `p`
(`nil` when the path leaves the tree). -/
def avlNode.subtreeAt : avlNode → List Dir → avlNode
  | t, [] => t
  | .nil, _ :: _ => .nil
  | .node _ _ l _, .L :: p => l.subtreeAt p
  | .node _ _ _ r, .R :: p => r.subtreeAt p

/-- Replace the subtree at path `p` of `t` by `s` (identity outside the
path; unreachable for paths that leave the tree, which never happens in the
walks below). -/
def avlNode.replaceAt : avlNode → List Dir → avlNode → avlNode
  | _, [], s => s
  | .nil, _ :: _, _ => .nil
  | .node v bf l r, .L :: p, s => .node v bf (l.replaceAt p s) r
  | .node v bf l r, .R :: p, s => .node v bf l (r.replaceAt p s)

/-- One iteration body of the Go loop in `updateBalanceFactors`:
`x.bf = x.balanceFactor()` at the node at path `p` (no-op on a nil target). -/
def setBalanceFactorAt (t : avlNode) (p : List Dir) : avlNode :=
  match t.subtreeAt p with
  | .nil => t
  | .node v _ l r => t.replaceAt p (.node v (r.Height - l.Height) l r)

/-- The Go loop of `updateBalanceFactors` (avl_node.go): starting at the
node at path `p`, recompute `bf` there and then at each parent in turn
(`p.dropLast`), for at most `fuel` nodes (the Go code breaks once `i >
limit` with `limit = 4`, i.e. after 5 updates), stopping early at the root.
Recomputing a `bf` never changes any height, so the sequential Go updates
coincide with these functional ones. -/
def updateBalanceFactorsAux : Nat → avlNode → List Dir → avlNode
  | 0, t, _ => t
  | fuel + 1, t, p =>
      let t1 := setBalanceFactorAt t p
      match p with
      | [] => t1
      | _ :: _ => updateBalanceFactorsAux fuel t1 p.dropLast

/-- `updateBalanceFactors` from avl_node.go, applied to the node at path
`p`.  The Go loop guard `x != nil` means a nil starting node does nothing at
all (this happens when `rotateRight` passes a nil `node.left`). -/
def updateBalanceFactors (t : avlNode) (p : List Dir) : avlNode :=
  match t.subtreeAt p with
  | .nil => t
  | _ => updateBalanceFactorsAux 5 t p

/-- `rotateLeft` from avl_node.go, applied at the node at path `p`.
Following the Go body with `node = t.subtreeAt p`: it saves `childL`,
`childR` (dereferenced: `none` models the Go panic when it is nil),
`grandchildL`, `grandchildR`; relinks so that the node keeps its position
with `left = childR` (now holding the node's old value, children
`grandchildL` and `childL`) and `right = grandchildR`; swaps the values of
the node and `childR`; then runs `updateBalanceFactors(node.left)` and
recomputes `node.right.bf` when `node.right` is non-nil. -/
def rotateLeft (t : avlNode) (p : List Dir) : Option avlNode :=
  match t.subtreeAt p with
  | .nil => none
  | .node _ _ _ .nil => none
  | .node v bf childL (.node rv rbf gl gr) =>
      let t1 := t.replaceAt p (.node rv bf (.node v rbf gl childL) gr)
      let t2 := updateBalanceFactors t1 (p ++ [Dir.L])
      some (setBalanceFactorAt t2 (p ++ [Dir.R]))

/-- `rotateRight` from avl_node.go, applied at the node at path `p`; the
mirror image of `rotateLeft` (dereferencing `childL`, so `none` models the
panic when `node.left` is nil).  Note that its
`updateBalanceFactors(node.left)` argument is the old `grandchildL`, which
can be nil, in which case the Go loop does nothing (see
`updateBalanceFactors`); `node.right = childL` is never nil, so its `bf` is
always recomputed. -/
def rotateRight (t : avlNode) (p : List Dir) : Option avlNode :=
  match t.subtreeAt p with
  | .nil => none
  | .node _ _ .nil _ => none
  | .node v bf (.node lv lbf gl gr) childR =>
      let t1 := t.replaceAt p (.node lv bf gl (.node v lbf gr childR))
      let t2 := updateBalanceFactors t1 (p ++ [Dir.L])
      some (setBalanceFactorAt t2 (p ++ [Dir.R]))

/-- `rotateRightLeft` from avl_node.go: `rotateRight(node.right)` then
`rotateLeft(node)`. -/
def rotateRightLeft (t : avlNode) (p : List Dir) : Option avlNode :=
  match rotateRight t (p ++ [Dir.R]) with
  | none => none
  | some t1 => rotateLeft t1 p

/-- `rotateLeftRight` from avl_node.go: `rotateLeft(node.left)` then
`rotateRight(node)`. -/
def rotateLeftRight (t : avlNode) (p : List Dir) : Option avlNode :=
  match rotateLeft t (p ++ [Dir.L]) with
  | none => none
  | some t1 => rotateRight t1 p

/-- The descent of `avlNode.Insert` (avl_node.go, lines 78-106): starting at
a non-nil node, find where the new value attaches.  Returns `none` when the
value is already present (the Go code returns false), otherwise the path to
the node that receives the new leaf together with the side it goes on.  The
Go conditions are: duplicate check, `v < value && left != nil` recurse left,
`v > value && right != nil` recurse right, otherwise attach on the side
given by `v < value`. -/
def findAttach (v : Int) : avlNode → Option (List Dir × Dir)
  | .nil => none
  | .node w _ l r =>
      if v = w then none
      else if v < w then
        match l with
        | .nil => some ([], Dir.L)
        | .node lw lbf ll lr =>
            match findAttach v (.node lw lbf ll lr) with
            | none => none
            | some (q, s) => some (Dir.L :: q, s)
      else
        match r with
        | .nil => some ([], Dir.R)
        | .node rw rbf rl rr =>
            match findAttach v (.node rw rbf rl rr) with
            | none => none
            | some (q, s) => some (Dir.R :: q, s)

/-- Create the new leaf (value `v`, `bf` at its zero value 0, parent set to
the attach node) as the left or right child of the node at path `p`. -/
def attachChild (t : avlNode) (p : List Dir) (side : Dir) (v : Int) : avlNode :=
  match t.subtreeAt p with
  | .nil => t
  | .node w bf l r =>
      match side with
      | .L => t.replaceAt p (.node w bf (.node v 0 .nil .nil) r)
      | .R => t.replaceAt p (.node w bf l (.node v 0 .nil .nil))

/-- One iteration of the rebalancing loop of `avlNode.Insert` (avl_node.go,
lines 116-150) at the walk position `q`: if the stored `bf` of the node
there is greater than 1 and its right child exists, apply `rotateRightLeft`
when the child's stored `bf` is negative or `rotateLeft` when it is
positive (nothing when it is 0); mirrored when `bf` is less than -1;
otherwise do nothing.  Also records which operation was applied (ghost
instrumentation).  `none` models a Go panic inside a rotation. -/
def rebalanceStep (t : avlNode) (q : List Dir) : Option (avlNode × List RotEvent) :=
  match t.subtreeAt q with
  | .nil => some (t, [])
  | .node _ xbf l r =>
      if xbf > 1 then
        match r with
        | .nil => some (t, [])
        | .node _ rbf _ _ =>
            if rbf < 0 then
              match rotateRightLeft t q with
              | none => none
              | some t1 => some (t1, [⟨RotKind.rotRL, q⟩])
            else if rbf > 0 then
              match rotateLeft t q with
              | none => none
              | some t1 => some (t1, [⟨RotKind.rotL, q⟩])
            else some (t, [])
      else if xbf < -1 then
        match l with
        | .nil => some (t, [])
        | .node _ lbf _ _ =>
            if lbf > 0 then
              match rotateLeftRight t q with
              | none => none
              | some t1 => some (t1, [⟨RotKind.rotLR, q⟩])
            else if lbf < 0 then
              match rotateRight t q with
              | none => none
              | some t1 => some (t1, [⟨RotKind.rotR, q⟩])
            else some (t, [])
      else some (t, [])

/-- The rebalancing loop `for x := t; x != nil; x = x.parent` of
`avlNode.Insert`, walking from the attach node (path `q`) through each
parent up to the root — `q.length + 1` iterations driven by the fuel.
Note the Go loop has no break: it continues past an applied rotation. -/
def rebalanceWalkAux : Nat → avlNode → List Dir → Option (avlNode × List RotEvent)
  | 0, t, q => rebalanceStep t q
  | fuel + 1, t, q =>
      match rebalanceStep t q with
      | none => none
      | some (t1, e) =>
          match rebalanceWalkAux fuel t1 q.dropLast with
          | none => none
          | some (t2, es) => some (t2, e ++ es)

/-- The full rebalancing walk of `avlNode.Insert`, from the attach node at
path `q` to the root. -/
def rebalanceWalk (t : avlNode) (q : List Dir) : Option (avlNode × List RotEvent) :=
  rebalanceWalkAux q.length t q

/-- `avlNode.Insert` from avl_node.go.  A nil receiver assigns a fresh node
to the local copy of the receiver pointer — invisible to the caller — and
returns true.  Otherwise: descend (`findAttach`); a duplicate returns false
with no mutation; else attach the new leaf, run `updateBalanceFactors` from
the attach node, then the rebalancing walk, and return true.  `none` models
a Go panic inside a rotation; the rotation log is ghost instrumentation. -/
def avlNode.Insert (t : avlNode) (v : Int) : Option (avlNode × Bool × List RotEvent) :=
  match t with
  | .nil => some (.nil, true, [])
  | .node _ _ _ _ =>
      match findAttach v t with
      | none => some (t, false, [])
      | some (p, side) =>
          let t1 := attachChild t p side v
          let t2 := updateBalanceFactors t1 p
          match rebalanceWalk t2 p with
          | none => none
          | some (t3, log) => some (t3, true, log)

/-- The `AVL` container (avl.go): owns the root node. -/
structure AVL where
  root : avlNode
deriving DecidableEq

/-- `AVL.Insert` (avl.go): creates the root (bf 0) when empty, otherwise
delegates to the root node. -/
def AVL.Insert (t : AVL) (v : Int) : Option (AVL × Bool × List RotEvent) :=
  match t.root with
  | .nil => some (⟨.node v 0 .nil .nil⟩, true, [])
  | .node w bf l r =>
      match avlNode.Insert (.node w bf l r) v with
      | none => none
      | some (t1, ok, log) => some (⟨t1⟩, ok, log)

/-- `AVL.Height` (avl.go): the root node's height (0 for nil). -/
def AVL.Height (t : AVL) : Int :=
  avlNode.Height t.root

/-- `AVL.Search` (avl.go): delegates to the root node. -/
def AVL.Search (t : AVL) (v : Int) : Bool :=
  avlNode.Search t.root v

/-- `AVL.Traverse` (avl.go): the Go method body is `return make(chan T)` — a
fresh unbuffered channel with no producer goroutine and no close.  No value
is ever emitted on it, so the sequence of values a consumer can receive is
empty (and a draining consumer blocks forever). -/
def AVL.Traverse (_ : AVL) (_ : TraverseOrder) : List Int :=
  []

/-- Insert each value of `vs` in turn into `t`, keeping only the trees
(`none` as soon as one insert would panic). -/
def AVL.InsertAll (t : AVL) : List Int → Option AVL
  | [] => some t
  | v :: vs =>
      match t.Insert v with
      | none => none
      | some (t1, _, _) => t1.InsertAll vs

/-- The property claimed of every node of an AVL tree after an insert: the
stored `bf` equals `height(right) - height(left)` and lies in `[-1, 1]`. -/
def balanceFactorInvariant : avlNode → Bool
  | .nil => true
  | .node v bf l r =>
      decide (bf = avlNode.balanceFactor (.node v bf l r)) &&
        decide (-1 ≤ bf) && decide (bf ≤ 1) &&
        balanceFactorInvariant l && balanceFactorInvariant r

/-- Whether a value occurs at some node of the tree (membership anywhere,
independent of search order). -/
def avlNode.containsValue : avlNode → Int → Bool
  | .nil, _ => false
  | .node w _ l r, v => decide (v = w) || l.containsValue v || r.containsValue v

/-- The empty AVL container (fresh `AVL[T]{}`). -/
def emptyAVL : AVL := ⟨.nil⟩

/-- C8: Inserting 21, 33, 1, 11, -13 in that order into an empty AVL
container leaves the root node's stored balance factor equal to -1. -/
theorem C8_root_balance_factor_is_minus_one :
    (emptyAVL.InsertAll [21, 33, 1, 11, -13]).map
        (fun c => match c.root with
          | .nil => none
          | .node _ bf _ _ => some bf) =
      some (some (-1)) := by
  decide

/-- C4 counterexample: against a nil AVL node sentinel, `Insert(5)` does not
return false (the Go method assigns a fresh node to the local copy of its
receiver and returns true), refuting the claim that every variant's node
type returns false there. -/
theorem C4_avl_nil_insert_not_false :
    ¬ ((avlNode.Insert .nil 5).map (fun r => r.2.1) = some false) := by
  decide

/-- C4 amended: Insert against a nil node sentinel mutates nothing for all
three variants and returns false for the BST and Red-Black node types, but
returns true for the AVL node type. -/
theorem C4_nil_insert_behavior (v : Int) :
    bstNode.Insert .nil v = (.nil, false) ∧
      redBlackNode.Insert .nil v = (.nil, false) ∧
      avlNode.Insert .nil v = some (.nil, true, []) := by
  exact ⟨rfl, rfl, rfl⟩

/-- C5 failing input: after inserting 6, 13, 1, 33, 29, 35 into an empty AVL
container (the sixth insert runs `rotateLeft` at the root with a non-nil
`childL` and `grandchildL`, which relinks them into each other's places),
the value 13 is present in the tree, yet `Insert(13)` returns true and the
resulting In-Order sequence holds 13 twice. -/
theorem C5_duplicate_insert_accepted :
    (emptyAVL.InsertAll [6, 13, 1, 33, 29, 35]).map
        (fun c => (c.root.containsValue 13,
          (c.Insert 13).map
            (fun r => (r.2.1,
              (traverseBinaryTree r.1.root.view .TraverseInOrder).count 13)))) =
      some (true, some (true, 2)) := by
  decide

/-- C3 failing input: the AVL container built by Insert(1); Insert(2) stores
the values 1 and 2 (Search finds both and the node-level In-Order walk
yields [1, 2]), yet the container's Traverse emits no values at all. -/
theorem C3_avl_container_traverse_empty :
    (emptyAVL.InsertAll [1, 2]).map
        (fun c => (c.Traverse .TraverseInOrder,
          traverseBinaryTree c.root.view .TraverseInOrder,
          c.Search 1, c.Search 2)) =
      some ([], [1, 2], true, true) := by
  decide

/-- C1 failing input: after inserting these 28 distinct values into an empty
AVL container (every earlier prefix still satisfies the invariant), some
node's stored balance factor no longer equals `height(right) -
height(left)` — the `updateBalanceFactors` walk stops after 5 nodes, so the
sixth ancestor on the path keeps a stale value. -/
theorem C1_balance_factor_invariant_violated :
    (emptyAVL.InsertAll
          [63, 10, 52, 9, 61, 42, 30, 59, 62, 16, 11, 45, 1, 60,
            47, 2, 3, 54, 19, 49, 33, 6, 28, 57, 20, 31, 17, 51]).map
        (fun c => balanceFactorInvariant c.root) =
      some false := by
  decide

/-- C2 counterexample: inserting 1 after this 28-value build performs two
rebalancing operations in a single Insert call — a Left-Right double
rotation at the node three levels down the left spine, after which the walk
continues upward and applies a further single Left rotation at the root —
refuting "at most one rebalancing operation per insertion, stopping the
walk after applying it". -/
theorem C2_two_rebalances_in_one_insert :
    (emptyAVL.InsertAll
          [73, 5, 16, 28, 46, 58, 30, 22, 24, 77, 20, 17, 25, 50,
            69, 21, 65, 57, 0, 45, 35, 51, 38, 70, 44, 29, 68, 71]).map
        (fun c => (c.Insert 1).map (fun r => r.2.2)) =
      some (some [⟨RotKind.rotLR, [Dir.L, Dir.L, Dir.L]⟩, ⟨RotKind.rotL, []⟩]) := by
  decide

lemma if_gt_eq_one_add_max (lh rh : Int) :
    (if lh > rh then lh + 1 else rh + 1) = 1 + max lh rh := by
  rw [max_def]
  split_ifs <;> omega

/-- C9: for each variant, Height() of an empty container is 0, the height of
a node is 1 + max of the child heights (an absent child contributing 0), and
a single-node tree has Height() 1. -/
theorem C9_height_contract :
    (BST.Height ⟨.nil⟩ = 0 ∧ bstNode.Height .nil = 0 ∧
      (∀ v l r, BST.Height ⟨.node v l r⟩ = 1 + max l.Height r.Height) ∧
      (∀ v, BST.Height ⟨.node v .nil .nil⟩ = 1)) ∧
    (AVL.Height ⟨.nil⟩ = 0 ∧ avlNode.Height .nil = 0 ∧
      (∀ v bf l r, AVL.Height ⟨.node v bf l r⟩ = 1 + max l.Height r.Height) ∧
      (∀ v bf, AVL.Height ⟨.node v bf .nil .nil⟩ = 1)) ∧
    (RedBlack.Height ⟨.nil⟩ = 0 ∧ redBlackNode.Height .nil = 0 ∧
      (∀ v c l r, RedBlack.Height ⟨.node v c l r⟩ = 1 + max l.Height r.Height) ∧
      (∀ v c, RedBlack.Height ⟨.node v c .nil .nil⟩ = 1)) := by
  refine ⟨⟨rfl, rfl, fun v l r => ?_, fun v => ?_⟩,
    ⟨rfl, rfl, fun v bf l r => ?_, fun v bf => ?_⟩,
    ⟨rfl, rfl, fun v c l r => ?_, fun v c => ?_⟩⟩
  · show bstNode.Height (.node v l r) = _
    rw [bstNode.Height]
    exact if_gt_eq_one_add_max _ _
  · rfl
  · show avlNode.Height (.node v bf l r) = _
    rw [avlNode.Height]
    exact if_gt_eq_one_add_max _ _
  · rfl
  · show redBlackNode.Height (.node v c l r) = _
    rw [redBlackNode.Height]
    exact if_gt_eq_one_add_max _ _
  · rfl

/-- Every node of the tree has `isRed = false` and `Metadata` "Black". -/
def redBlackNode.allNodesBlack : redBlackNode → Bool
  | .nil => true
  | .node v red l r =>
      !red && decide (redBlackNode.Metadata (.node v red l r) = some "Black") &&
        l.allNodesBlack && r.allNodesBlack

/-- Insert each value of `vs` in turn into the container. -/
def RedBlack.InsertAll (t : RedBlack) : List Int → RedBlack
  | [] => t
  | v :: vs => ((t.Insert v).1).InsertAll vs

lemma rb_node_insert_preserves_black (t : redBlackNode) (v : Int)
    (h : t.allNodesBlack = true) :
    (redBlackNode.Insert t v).1.allNodesBlack = true := by
  induction t with
  | nil => exact h
  | node w c l r ihl ihr =>
      rw [redBlackNode.allNodesBlack] at h
      simp only [Bool.and_eq_true] at h
      obtain ⟨⟨⟨hc, hm⟩, hl⟩, hr⟩ := h
      rw [redBlackNode.Insert.eq_def]
      by_cases hvw : v = w
      · simp only [if_pos hvw]
        rw [redBlackNode.allNodesBlack]
        simp only [Bool.and_eq_true]
        exact ⟨⟨⟨hc, hm⟩, hl⟩, hr⟩
      · simp only [if_neg hvw]
        by_cases hlt : v < w
        · simp only [if_pos hlt]
          cases l with
          | nil =>
              rw [redBlackNode.allNodesBlack]
              simp only [Bool.and_eq_true]
              exact ⟨⟨⟨hc, hm⟩, by simp [redBlackNode.allNodesBlack, redBlackNode.Metadata]⟩, hr⟩
          | node lw lc ll lr =>
              rw [redBlackNode.allNodesBlack]
              simp only [Bool.and_eq_true]
              exact ⟨⟨⟨hc, hm⟩, ihl hl⟩, hr⟩
        · simp only [if_neg hlt]
          cases r with
          | nil =>
              rw [redBlackNode.allNodesBlack]
              simp only [Bool.and_eq_true]
              exact ⟨⟨⟨hc, hm⟩, hl⟩, by simp [redBlackNode.allNodesBlack, redBlackNode.Metadata]⟩
          | node rw' rc rl rr =>
              rw [redBlackNode.allNodesBlack]
              simp only [Bool.and_eq_true]
              exact ⟨⟨⟨hc, hm⟩, hl⟩, ihr hr⟩

lemma rb_container_insert_preserves_black (t : RedBlack) (v : Int)
    (h : t.root.allNodesBlack = true) :
    ((t.Insert v).1).root.allNodesBlack = true := by
  obtain ⟨root⟩ := t
  cases root with
  | nil => rfl
  | node w c l r => exact rb_node_insert_preserves_black _ v h

lemma rb_insert_all_preserves_black (vs : List Int) :
    ∀ t : RedBlack, t.root.allNodesBlack = true →
      (t.InsertAll vs).root.allNodesBlack = true := by
  induction vs with
  | nil => intro t h; exact h
  | cons v vs ih =>
      intro t h
      exact ih _ (rb_container_insert_preserves_black t v h)

/-- C10: every node of a Red-Black container built by any sequence of Insert
calls from empty has `isRed = false`, so `Metadata()` is "Black" at every
node (insertion never assigns a color, leaving the zero value). -/
theorem C10_red_black_all_nodes_black (vs : List Int) :
    ((⟨.nil⟩ : RedBlack).InsertAll vs).root.allNodesBlack = true :=
  rb_insert_all_preserves_black vs ⟨.nil⟩ rfl

/-- C7: two trees are Equal exactly when they are Equivalent and their shape
token sequences (the in-order structural walk emitting descend-left, value,
ascend and descend-right tokens) are identical. -/
theorem C7_equal_iff_equivalent_and_same_shape (a b : BinaryTree) :
    binaryTreesEqual a b = true ↔
      (binaryTreesEquivalent a b = true ∧
        binaryTreeStructure a = binaryTreeStructure b) := by
  rw [binaryTreesEqual, binaryTreeStructureEqual]
  simp [Bool.and_eq_true]

theorem C7_witness :
    binaryTreesEquivalent (BinaryTree.node 42 .nil .nil) (BinaryTree.node 42 .nil .nil) = true ∧
      binaryTreeStructure (BinaryTree.node 42 .nil .nil) =
        binaryTreeStructure (BinaryTree.node 42 .nil .nil) :=
  (C7_equal_iff_equivalent_and_same_shape _ _).mp (by decide)

lemma equivalentLoop_self (l : List Int) : equivalentLoop l l = true := by
  induction l with
  | nil => rfl
  | cons a as ih => simp [equivalentLoop, ih]

lemma equivalentLoop_comm (la : List Int) :
    ∀ lb, equivalentLoop la lb = equivalentLoop lb la := by
  induction la with
  | nil =>
      intro lb
      cases lb with
      | nil => rfl
      | cons b bs => simp [equivalentLoop]
  | cons a as ih =>
      intro lb
      cases lb with
      | nil => simp [equivalentLoop]
      | cons b bs =>
          by_cases h : a = b
          · subst h
            simp [equivalentLoop, ih bs]
          · have h' : ¬b = a := fun e => h e.symm
            simp [equivalentLoop, h, h']

/-- C6: the comparator's Equivalent is reflexive and symmetric, Equal
implies Equivalent, and the converse fails: the left spine 42-21-1 and the
balanced tree 21 with children 1 and 42 hold the same values (Equivalent)
but differ in shape (not Equal). -/
theorem C6_equivalent_equal_properties :
    (∀ a : BinaryTree, binaryTreesEquivalent a a = true) ∧
      (∀ a b : BinaryTree, binaryTreesEquivalent a b = binaryTreesEquivalent b a) ∧
      (∀ a b : BinaryTree, binaryTreesEqual a b = true → binaryTreesEquivalent a b = true) ∧
      (binaryTreesEquivalent
          (.node 42 (.node 21 (.node 1 .nil .nil) .nil) .nil)
          (.node 21 (.node 1 .nil .nil) (.node 42 .nil .nil)) = true ∧
        binaryTreesEqual
          (.node 42 (.node 21 (.node 1 .nil .nil) .nil) .nil)
          (.node 21 (.node 1 .nil .nil) (.node 42 .nil .nil)) = false) := by
  refine ⟨fun a => ?_, fun a b => ?_, fun a b h => ?_, by decide, by decide⟩
  · cases a with
    | nil => rfl
    | node v l r => simp [binaryTreesEquivalent, isTreeNil, equivalentLoop_self]
  · cases a with
    | nil =>
        cases b with
        | nil => rfl
        | node bv bl br => simp [binaryTreesEquivalent, isTreeNil]
    | node av al ar =>
        cases b with
        | nil => simp [binaryTreesEquivalent, isTreeNil]
        | node bv bl br =>
            simp [binaryTreesEquivalent, isTreeNil, equivalentLoop_comm]
  · rw [binaryTreesEqual, Bool.and_eq_true] at h
    exact h.1

theorem C6_witness :
    binaryTreesEquivalent (BinaryTree.node 7 .nil (.node 9 .nil .nil))
      (BinaryTree.node 7 .nil (.node 9 .nil .nil)) = true :=
  C6_equivalent_equal_properties.2.2.1 _ _ (by decide)

/-- The action the rebalancing walk takes at one visited ancestor, phrased
as in the amended claim: nothing when the node's stored balance factor lies
in [-1, 1]; at a right-heavy ancestor (bf > 1) with a right child, a
Right-then-Left double rotation when that child's stored bf is negative, a
single Left rotation when it is positive, and nothing when it is 0 or the
child is missing; mirrored at a left-heavy ancestor (bf < -1). -/
def rebalanceStepSpec (t : avlNode) (q : List Dir) : Option (avlNode × List RotEvent) :=
  match t.subtreeAt q with
  | .nil => some (t, [])
  | .node _ xbf l r =>
      if -1 ≤ xbf ∧ xbf ≤ 1 then some (t, [])
      else if xbf > 1 then
        match r with
        | .nil => some (t, [])
        | .node _ rbf _ _ =>
            if rbf < 0 then
              match rotateRightLeft t q with
              | none => none
              | some t1 => some (t1, [⟨RotKind.rotRL, q⟩])
            else if rbf > 0 then
              match rotateLeft t q with
              | none => none
              | some t1 => some (t1, [⟨RotKind.rotL, q⟩])
            else some (t, [])
      else
        match l with
        | .nil => some (t, [])
        | .node _ lbf _ _ =>
            if lbf > 0 then
              match rotateLeftRight t q with
              | none => none
              | some t1 => some (t1, [⟨RotKind.rotLR, q⟩])
            else if lbf < 0 then
              match rotateRight t q with
              | none => none
              | some t1 => some (t1, [⟨RotKind.rotR, q⟩])
            else some (t, [])

lemma rebalanceStep_eq_spec (t : avlNode) (q : List Dir) :
    rebalanceStep t q = rebalanceStepSpec t q := by
  rw [rebalanceStep, rebalanceStepSpec]
  cases t.subtreeAt q with
  | nil => rfl
  | node v xbf l r =>
      by_cases h1 : xbf > 1
      · have hin : ¬(-1 ≤ xbf ∧ xbf ≤ 1) := by omega
        simp only [if_pos h1, if_neg hin]
      · by_cases h2 : xbf < -1
        · have hin : ¬(-1 ≤ xbf ∧ xbf ≤ 1) := by omega
          simp only [if_neg h1, if_pos h2, if_neg hin]
        · have hin : -1 ≤ xbf ∧ xbf ≤ 1 := by omega
          simp only [if_neg h1, if_neg h2, if_pos hin]

/-- The positions the rebalancing walk visits: the attach node's path, its
parent's, ..., up to the root (`[]`); the fuel is the path length. -/
def ancestorChain : Nat → List Dir → List (List Dir)
  | 0, q => [q]
  | n + 1, q => q :: ancestorChain n q.dropLast

/-- The rebalancing walk phrased as in the amended claim: fold the
per-ancestor action over every position from the attach node up to the
root, never stopping early, concatenating the rotation logs. -/
def rebalanceWalkSpec (t : avlNode) (q : List Dir) : Option (avlNode × List RotEvent) :=
  (ancestorChain q.length q).foldl
    (fun acc pos =>
      match acc with
      | none => none
      | some (t0, es) =>
          match rebalanceStepSpec t0 pos with
          | none => none
          | some (t1, e) => some (t1, es ++ e))
    (some (t, []))

lemma walkSpec_foldl_none (ps : List (List Dir)) :
    ps.foldl
      (fun acc pos =>
        match acc with
        | none => none
        | some (t0, es) =>
            match rebalanceStepSpec t0 pos with
            | none => none
            | some (t1, e) => some (t1, es ++ e))
      none = none := by
  induction ps with
  | nil => rfl
  | cons p ps ih => exact ih

lemma walkAux_eq_foldl (n : Nat) :
    ∀ (t : avlNode) (q : List Dir) (es0 : List RotEvent),
      (ancestorChain n q).foldl
        (fun acc pos =>
          match acc with
          | none => none
          | some (t0, es) =>
              match rebalanceStepSpec t0 pos with
              | none => none
              | some (t1, e) => some (t1, es ++ e))
        (some (t, es0)) =
      match rebalanceWalkAux n t q with
      | none => none
      | some (t2, es) => some (t2, es0 ++ es) := by
  induction n with
  | zero =>
      intro t q es0
      rw [ancestorChain, rebalanceWalkAux, rebalanceStep_eq_spec]
      simp only [List.foldl_cons, List.foldl_nil]
  | succ n ih =>
      intro t q es0
      rw [ancestorChain, rebalanceWalkAux, rebalanceStep_eq_spec]
      simp only [List.foldl_cons]
      cases hs : rebalanceStepSpec t q with
      | none => simpa using walkSpec_foldl_none (ancestorChain n q.dropLast)
      | some r =>
          obtain ⟨t1, e⟩ := r
          have := ih t1 q.dropLast (es0 ++ e)
          simp only [] at this ⊢
          rw [this]
          cases rebalanceWalkAux n t1 q.dropLast with
          | none => rfl
          | some r2 =>
              obtain ⟨t2, es⟩ := r2
              simp [List.append_assoc]

/-- C2 amended: the rebalancing walk of an AVL Insert visits every ancestor
from the attach node up to the root and at each one applies exactly the
action described by `rebalanceStepSpec` (a rotation only at a node whose
stored balance factor is outside [-1, 1] and whose heavy-side child exists
with nonzero stored balance factor), accumulating all rotations — it does
not stop after applying one. -/
theorem C2_walk_equals_per_ancestor_spec (t : avlNode) (q : List Dir) :
    rebalanceWalk t q = rebalanceWalkSpec t q := by
  rw [rebalanceWalk, rebalanceWalkSpec, walkAux_eq_foldl q.length t q []]
  cases rebalanceWalkAux q.length t q with
  | none => rfl
  | some r =>
      obtain ⟨t2, es⟩ := r
      simp
